import Mathlib

/-!
Verification development for the MARC21 extraction and download tool.

The TypeScript sources are embedded shallowly:
* `parser.ts` (class `Marc21Parser`): record-boundary scanning, category
  tallying, single-criterion extraction, bulk single-pass extraction and
  the `convertToBookRecord` mapper;
* `downloader.ts` (class `DownloadManager`): the persisted download index,
  ingestion of result files, redirect-following download and index updates.

JavaScript strings are modelled by `String`; the JS truthiness tests the
code performs on possibly-absent subfield text, `string | null` fields and
optional messages are modelled explicitly (`""` and `none` are falsy).
`String.prototype.trim`, `toLowerCase` and `includes` are re-implemented
over `List Char` so that every definition evaluates inside the kernel.
-/

/-- Character-list model of `String.prototype.trim`: drop leading and
trailing whitespace. -/
def trimChars (l : List Char) : List Char :=
  ((l.dropWhile Char.isWhitespace).reverse.dropWhile Char.isWhitespace).reverse

/-- String wrapper for `trimChars`, the model of `s.trim()`. -/
def strTrim (s : String) : String := ⟨trimChars s.data⟩

/-- Model of `s.toLowerCase()` (ASCII case folding). -/
def strLower (s : String) : String := ⟨s.data.map Char.toLower⟩

/-- Does `pat` occur as a contiguous sublist of the second argument?
Model of `String.prototype.includes` on the underlying characters. -/
def listContains (pat : List Char) : List Char → Bool
  | [] => pat.isEmpty
  | c :: cs => pat.isPrefixOf (c :: cs) || listContains pat cs

/-- Model of `s.includes(pat)`. -/
def strIncludes (s pat : String) : Bool := listContains pat.data s.data

/-- JS truthiness of a `string | null` (or optional string) value:
`null`/absent and the empty string are falsy. -/
def truthyOpt : Option String → Bool
  | none => false
  | some s => !(s == "")

/-! ## Data model of a parsed MARC record (`types.ts`)

`SubField` is the xml2js shape `{ $: { code }, _ }`; a subfield whose text
node is absent is represented by `val = ""` (both are falsy in every test
the code performs on `subField._`). `DataField` is `{ $: { tag },
'marc:subfield' }` after the code's array normalisation, and `MarcRecord`
holds the normalised `marc:datafield` list. -/

structure SubField where
  code : String
  val : String
deriving DecidableEq, Repr

structure DataField where
  tag : String
  subfields : List SubField
deriving DecidableEq, Repr

structure MarcRecord where
  datafields : List DataField
deriving DecidableEq, Repr

/-- The `BookRecord` interface of `types.ts` (field `thumnail` keeps the
source's spelling). -/
structure BookRecord where
  title : String
  language : Option String
  authors : List String
  nbPages : Option Nat
  publicationDate : Option String
  bookUrl : String
  ISBN : Option String
  description : Option String
  publisher : String
  licence : Option String
  thumnail : Option String
deriving DecidableEq, Repr

/-- The loop-with-`break` pattern `for (sub of subs) if (sub.$.code ===
code && sub._) { take sub._.trim(); break; }`: trimmed text of the first
subfield with the given code and truthy text. -/
def firstSubfieldValue (code : String) : List SubField → Option String
  | [] => none
  | sf :: rest =>
    if sf.code = code ∧ sf.val ≠ "" then some (strTrim sf.val)
    else firstSubfieldValue code rest

/-- The loop-without-`break` pattern `for (sub of subs) if (sub.$.code ===
code && sub._) x = sub._.trim();`: the final value of `x` is the trimmed
text of the last subfield with the given code and truthy text. -/
def lastSubfieldValue (code : String) (subs : List SubField) : Option String :=
  ((subs.filter fun sf => sf.code == code && !(sf.val == "")).getLast?).map
    fun sf => strTrim sf.val

/-- Case `'020'` of `convertToBookRecord`: guarded by `!bookRecord.ISBN`,
takes the first truthy subfield `a` (with `break`). -/
def isbnStep (o : Option String) (subs : List SubField) : Option String :=
  if truthyOpt o then o
  else (firstSubfieldValue "a" subs).or o

/-- Push one author: `if (author && !authors.includes(author))
authors.push(author)`. -/
def pushAuthor (as : List String) (a : String) : List String :=
  if a ≠ "" ∧ as.contains a = false then as ++ [a] else as

/-- Cases `'100'`/`'700'` of `convertToBookRecord`: append each trimmed
truthy subfield `a`, deduplicated, insertion-ordered. -/
def authorsStep (as : List String) (subs : List SubField) : List String :=
  subs.foldl
    (fun as sf =>
      if sf.code = "a" ∧ sf.val ≠ "" then pushAuthor as (strTrim sf.val) else as)
    as

/-- Case `'245'`: local `title`/`subtitle` take the last truthy subfield
`a` resp. `b`; the record title is `` `${title}: ${subtitle}` `` when the
subtitle is truthy, else `title`. -/
def titleStep (subs : List SubField) : String :=
  let t := (lastSubfieldValue "a" subs).getD ""
  let s := (lastSubfieldValue "b" subs).getD ""
  if s ≠ "" then t ++ ": " ++ s else t

/-- Digit run to a number: model of `parseInt(run, 10)`. -/
def digitsVal (l : List Char) : Nat :=
  l.foldl (fun n c => n * 10 + (c.toNat - 48)) 0

/-- Does the regex `(\d+)\s*(?:p\.?|pages?)/i` match at the start of `l`?
A nonempty digit run, optional whitespace, then `p`/`P` (the rest of the
alternation is optional, so a bare `p` suffices); returns the run's value. -/
def matchPagesAt (l : List Char) : Option Nat :=
  let ds := l.takeWhile Char.isDigit
  if ds.isEmpty then none
  else
    match (l.dropWhile Char.isDigit).dropWhile Char.isWhitespace with
    | c :: _ => if c = 'p' ∨ c = 'P' then some (digitsVal ds) else none
    | [] => none

/-- Leftmost match of the page-count regex: model of
`physicalDesc.match(/(\d+)\s*(?:p\.?|pages?)/i)`. -/
def findPages : List Char → Option Nat
  | [] => none
  | c :: cs =>
    match matchPagesAt (c :: cs) with
    | some n => some n
    | none => findPages cs

/-- Case `'300'`: only the first truthy subfield `a` is examined
(unconditional `break`); `nbPages` is overwritten only when the regex
matches its trimmed text. -/
def nbPagesStep (old : Option Nat) (subs : List SubField) : Option Nat :=
  match firstSubfieldValue "a" subs with
  | some v =>
    match findPages v.data with
    | some n => some n
    | none => old
  | none => old

/-- Case `'540'`: for each subfield with code `a` or `f` and truthy text,
assign the trimmed text when the current licence is still falsy. -/
def licenceStep (o : Option String) (subs : List SubField) : Option String :=
  subs.foldl
    (fun o sf =>
      if (sf.code = "a" ∨ sf.code = "f") ∧ sf.val ≠ "" then
        if truthyOpt o then o else some (strTrim sf.val)
      else o)
    o

/-- Local `url` of case `'856'`: last truthy subfield `u`, trimmed
(`''` when none). -/
def url856 (subs : List SubField) : String :=
  (lastSubfieldValue "u" subs).getD ""

/-- Local `description` of case `'856'`: last truthy subfield `z`,
trimmed and lowercased (`''` when none). -/
def desc856 (subs : List SubField) : String :=
  ((lastSubfieldValue "z" subs).map strLower).getD ""

/-- The thumbnail test of case `'856'` (lines 533-540 of `parser.ts`):
the lowercased description is probed for `thumbnail`/`cover`/`image`, the
lowercased URL additionally for `thumb`. -/
def isThumbnailCheck (url desc : String) : Bool :=
  strIncludes desc "thumbnail" || strIncludes desc "cover" ||
  strIncludes desc "image" ||
  strIncludes (strLower url) "thumbnail" || strIncludes (strLower url) "cover" ||
  strIncludes (strLower url) "image" || strIncludes (strLower url) "thumb"

/-- Case `'856'`: when the URL is truthy, a thumbnail-classified URL fills
the still-unset `thumnail` slot, otherwise the URL fills a still-unset
`bookUrl`. -/
def process856 (br : BookRecord) (subs : List SubField) : BookRecord :=
  if url856 subs ≠ "" then
    if isThumbnailCheck (url856 subs) (desc856 subs) && !truthyOpt br.thumnail then
      { br with thumnail := some (url856 subs) }
    else if br.bookUrl = "" then
      { br with bookUrl := url856 subs }
    else br
  else br

/-- One iteration of the `switch (tag)` over a data field inside
`convertToBookRecord`. -/
def processDataField (br : BookRecord) (df : DataField) : BookRecord :=
  if df.tag = "020" then { br with ISBN := isbnStep br.ISBN df.subfields }
  else if df.tag = "100" ∨ df.tag = "700" then
    { br with authors := authorsStep br.authors df.subfields }
  else if df.tag = "245" then { br with title := titleStep df.subfields }
  else if df.tag = "260" then
    { br with
      publisher := (lastSubfieldValue "b" df.subfields).getD br.publisher,
      publicationDate := (lastSubfieldValue "c" df.subfields).or br.publicationDate }
  else if df.tag = "300" then { br with nbPages := nbPagesStep br.nbPages df.subfields }
  else if df.tag = "520" then
    { br with
      description := (firstSubfieldValue "a" df.subfields).or br.description }
  else if df.tag = "540" then { br with licence := licenceStep br.licence df.subfields }
  else if df.tag = "546" then
    { br with
      language := (firstSubfieldValue "a" df.subfields).or br.language }
  else if df.tag = "856" then process856 br df.subfields
  else br

/-- The default-initialised book record of `convertToBookRecord`. -/
def initialBookRecord : BookRecord :=
  { title := ""
    language := none
    authors := []
    nbPages := none
    publicationDate := none
    bookUrl := ""
    ISBN := none
    description := none
    publisher := ""
    licence := none
    thumnail := none }

/-- `Marc21Parser.convertToBookRecord`: fold the switch over the record's
data fields starting from the defaults. -/
def convertToBookRecord (r : MarcRecord) : BookRecord :=
  r.datafields.foldl processDataField initialBookRecord

/-! ## Matching and extraction (`parser.ts`) -/

/-- `Marc21Parser.recordMatchesCriteria`: some data field has the
requested tag and a subfield `a` with truthy text whose trimmed value
equals the requested name exactly. -/
def recordMatchesCriteria (r : MarcRecord) (field name : String) : Bool :=
  r.datafields.any fun df =>
    df.tag == field &&
      df.subfields.any fun sf =>
        sf.code == "a" && !(sf.val == "") && strTrim sf.val == name

/-- `Marc21Parser.recordMatchesCategoryFilter` (the refactored copy of
`recordMatchesCriteria` used by the bulk path). -/
def recordMatchesCategoryFilter (r : MarcRecord) (field name : String) : Bool :=
  r.datafields.any fun df =>
    df.tag == field &&
      df.subfields.any fun sf =>
        sf.code == "a" && !(sf.val == "") && strTrim sf.val == name

/-- `Marc21Parser.processRecordForExtraction` on one dispatched fragment:
a fragment that fails to parse (`none`) is skipped; a parsed record is
converted and pushed when it matches the criteria. -/
def processRecordForExtraction (field name : String) (acc : List BookRecord) :
    Option MarcRecord → List BookRecord
  | none => acc
  | some r =>
    if recordMatchesCriteria r field name then acc ++ [convertToBookRecord r]
    else acc

/-- `Marc21Parser.extractRecords` at the level of the in-order parse
results of the dispatched fragments: the accumulated `matchingRecords`. -/
def extractRecordsList (field name : String) (recs : List (Option MarcRecord)) :
    List BookRecord :=
  recs.foldl (processRecordForExtraction field name) []

/-- The `BulkExtractItem` interface of `types.ts`. -/
structure BulkExtractItem where
  name : String
  count : Nat
  field : String
deriving DecidableEq, Repr

/-- The bucket key `` `${category.field}:${category.name}` ``. -/
def categoryKey (c : BulkExtractItem) : String := c.field ++ ":" ++ c.name

/-- The `Map<string, BookRecord[]>` of the bulk path, observed through
`get`: a partial map from keys to buckets. -/
def Buckets : Type := String → Option (List BookRecord)

/-- `Map.set`. -/
def bucketsSet (b : Buckets) (k : String) (v : List BookRecord) : Buckets :=
  fun k' => if k' = k then some v else b k'

/-- `const bucket = categoryBuckets.get(key); if (bucket) bucket.push(x)`. -/
def bucketPush (b : Buckets) (k : String) (x : BookRecord) : Buckets :=
  match b k with
  | some l => bucketsSet b k (l ++ [x])
  | none => b

/-- The bucket initialisation loop of `extractAllCategoriesInSinglePass`. -/
def initBuckets (cats : List BulkExtractItem) : Buckets :=
  cats.foldl (fun b c => bucketsSet b (categoryKey c) []) fun _ => none

/-- The per-category body of the `for (const category of categories)`
loop in `processRecordForAllCategories`: on a match, convert the record
and push it to that category's bucket. -/
def categoryStep (r : MarcRecord) (b : Buckets) (c : BulkExtractItem) : Buckets :=
  if recordMatchesCategoryFilter r c.field c.name then
    bucketPush b (categoryKey c) (convertToBookRecord r)
  else b

/-- `Marc21Parser.processRecordForAllCategories` on one dispatched
fragment: parse failures are skipped; a parsed record is tested against
every category and, on each match, converted and pushed to that
category's bucket. -/
def processRecordForAllCategories (cats : List BulkExtractItem) (b : Buckets) :
    Option MarcRecord → Buckets
  | none => b
  | some r => cats.foldl (categoryStep r) b

/-- `Marc21Parser.extractAllCategoriesInSinglePass` at the level of the
in-order parse results of the dispatched fragments. -/
def extractAllCategoriesInSinglePass (cats : List BulkExtractItem)
    (recs : List (Option MarcRecord)) : Buckets :=
  recs.foldl (processRecordForAllCategories cats) (initBuckets cats)

/-! ## Category tally finalisation (`parser.ts`) -/

/-- A value of the `CategoryCounter` object (`code` is declared optional
and is never written by the parser). -/
structure CounterVal where
  count : Nat
  code : Option String
deriving DecidableEq, Repr

/-- The `CategoryData` interface of `types.ts`. -/
structure CategoryData where
  name : String
  code : Option String
  count : Nat
  field : String
deriving DecidableEq, Repr

/-- The `.map` step of `convertToSortedArray` on one counter entry. -/
def toCategoryData (field : String) (p : String × CounterVal) : CategoryData :=
  { name := p.1, code := p.2.code, count := p.2.count, field := field }

/-- `Marc21Parser.convertToSortedArray`: map the counter entries (in
object-entry order) to `CategoryData`, filter by `count >= minCount` and
sort by the comparator `(a, b) => b.count - a.count` (count descending). -/
def convertToSortedArray (counter : List (String × CounterVal)) (field : String)
    (minCount : Nat) : List CategoryData :=
  (((counter.map (toCategoryData field)).filter fun c => minCount ≤ c.count).mergeSort
    fun a b => b.count ≤ a.count)

/-! ## Record Boundary Scanner (`parser.ts`, `processXmlFile`)

The scanner concatenates chunks into a carry-over buffer and repeatedly:
finds the first `'</marc:record>'`, takes the buffer up to and including
it, searches that span backwards for the last `'<marc:record>'` and, when
found, dispatches the span from that opening marker; the remainder after
the closing marker is retained, and whatever is left at end of stream is
discarded.  The carried-over remainder always restarts at the character
after the previously consumed closing marker, so the fragments dispatched
are independent of the chunk boundaries; the functions below model the
scan of the whole character stream (fuel-driven structural recursion, the
fuel `l.length + 1` always suffices). -/

/-- The closing delimiter `'</marc:record>'`. -/
def closeMarker : List Char := "</marc:record>".data

/-- The opening delimiter `'<marc:record>'`. -/
def openMarker : List Char := "<marc:record>".data

/-- Split at the first occurrence of `pat`: returns the segment up to and
including `pat` together with the rest, or `none` when `pat` does not
occur (the model of `buffer.indexOf(pat)` plus the substring bookkeeping). -/
def splitAtFirst (pat : List Char) : List Char → Option (List Char × List Char)
  | [] => none
  | c :: cs =>
    if pat.isPrefixOf (c :: cs) then some (pat, (c :: cs).drop pat.length)
    else
      match splitAtFirst pat cs with
      | some (seg, rest) => some (c :: seg, rest)
      | none => none

/-- The suffix of `l` starting at the last occurrence of `pat` (the model
of `recordXml.substring(recordXml.lastIndexOf(pat))`), or `none` when
`pat` does not occur. -/
def suffixFromLast (pat : List Char) : List Char → Option (List Char)
  | [] => none
  | c :: cs =>
    match suffixFromLast pat cs with
    | some s => some s
    | none => if pat.isPrefixOf (c :: cs) then some (c :: cs) else none

/-- Fuelled scanner loop: each round consumes the buffer up to the first
closing marker and dispatches the span from that segment's last opening
marker (when one exists); no closing marker ends the scan, discarding the
remainder. -/
def scanRecordsGo : Nat → List Char → List (List Char)
  | 0, _ => []
  | fuel + 1, l =>
    match splitAtFirst closeMarker l with
    | none => []
    | some (seg, rest) =>
      (match suffixFromLast openMarker seg with
       | some frag => [frag]
       | none => []) ++ scanRecordsGo fuel rest

/-- The fragments dispatched by `processXmlFile` for the whole stream. -/
def scanRecords (l : List Char) : List (List Char) :=
  scanRecordsGo (l.length + 1) l

/-- Fuelled decomposition of the stream into the closing-marker-terminated
segments the scanner loop consumes. -/
def segmentsGo : Nat → List Char → List (List Char)
  | 0, _ => []
  | fuel + 1, l =>
    match splitAtFirst closeMarker l with
    | none => []
    | some (seg, rest) => seg :: segmentsGo fuel rest

/-- The closing-marker-terminated segments of the stream. -/
def segmentsOf (l : List Char) : List (List Char) :=
  segmentsGo (l.length + 1) l

/-- Fuelled form of the stream minus its unterminated tail. -/
def terminatedPartGo : Nat → List Char → List Char
  | 0, _ => []
  | fuel + 1, l =>
    match splitAtFirst closeMarker l with
    | none => []
    | some (seg, rest) => seg ++ terminatedPartGo fuel rest

/-- Modelled from the spec: the original stream minus any unterminated
trailing fragment, i.e. the prefix of the stream up to and including the
last closing marker (empty when no closing marker occurs). -/
def terminatedPart (l : List Char) : List Char :=
  terminatedPartGo (l.length + 1) l

/-- The fragment a segment contributes: the span from its last opening
marker, or nothing. -/
def segFrag (seg : List Char) : List Char :=
  (suffixFromLast openMarker seg).getD []

/-- The characters of a segment the scanner silently skips: everything
before the segment's last opening marker (the whole segment when it has
no opening marker). -/
def segSkipped (seg : List Char) : List Char :=
  seg.take (seg.length - (segFrag seg).length)

/-! ## Download Manager (`downloader.ts`)

The persisted index is the JSON object `DownloadIndex`, observed only
through key lookup and assignment; it is modelled as a partial map from
sanitized-ISBN keys to entries.  Optional string members that the code
only ever tests for truthiness or overwrites (`errorMessage`) are
modelled as plain strings with `""` for absent, which the code cannot
distinguish from a deleted member. -/

/-- The `DownloadState` union of `types.ts`. -/
inductive DownloadState where
  | pending
  | downloading
  | error
  | done
deriving DecidableEq, Repr

/-- The `IndexEntry` interface of `types.ts` (`downloadedAt` keeps the
ISO timestamp as an opaque string). -/
structure IndexEntry where
  record : BookRecord
  downloadState : DownloadState
  filePath : Option String
  errorMessage : String
  downloadedAt : Option String
deriving DecidableEq, Repr

/-- The `DownloadIndex` object, observed through lookup by key. -/
def DownloadIndex : Type := String → Option IndexEntry

/-- `DownloadManager.sanitizeISBN`: strip every character outside
`[a-zA-Z0-9]`. -/
def sanitizeISBN (isbn : String) : String :=
  ⟨isbn.data.filter Char.isAlphanum⟩

/-- The body of the reset loop in `DownloadManager.loadOrCreateIndex`: an
entry in state `downloading` or `error` becomes `pending` and its error
message is deleted (a falsy message is left alone, which coincides with
deletion in this model). -/
def resetTransientEntry (e : IndexEntry) : IndexEntry :=
  if e.downloadState = .downloading ∨ e.downloadState = .error then
    { e with downloadState := .pending, errorMessage := "" }
  else e

/-- The whole reset loop of `loadOrCreateIndex` over a loaded index. -/
def resetTransientStates (idx : DownloadIndex) : DownloadIndex :=
  fun k => (idx k).map resetTransientEntry

/-- The per-record body of the ingestion loop in
`DownloadManager.processJsonFile`: records with falsy `ISBN` or falsy
`bookUrl` are skipped; otherwise a missing key is inserted as `pending`
and an existing entry has only its `record` member replaced. -/
def processJsonRecord (idx : DownloadIndex) (r : BookRecord) : DownloadIndex :=
  if truthyOpt r.ISBN && !(r.bookUrl == "") then
    let isbn := sanitizeISBN (r.ISBN.getD "")
    match idx isbn with
    | none =>
      fun k =>
        if k = isbn then
          some { record := r, downloadState := .pending, filePath := none,
                 errorMessage := "", downloadedAt := none }
        else idx k
    | some e => fun k => if k = isbn then some { e with record := r } else idx k
  else idx

/-- `DownloadManager.processJsonFile`: ingest the `matchingRecords` of one
results file in order. -/
def processJsonFile (idx : DownloadIndex) (records : List BookRecord) :
    DownloadIndex :=
  records.foldl processJsonRecord idx

/-- The `DownloadResult` interface of `types.ts` (the purely informational
`downloadTime`/`fileSize` members are omitted; `errorMessage` is `""` when
absent). -/
structure DownloadResult where
  isbn : String
  success : Bool
  filePath : Option String
  errorMessage : String
deriving DecidableEq, Repr

/-- One HTTP exchange as observed by `downloadWithRedirects`: a redirect
status (301/302/307/308) with or without a `location`, a 200 whose body
streams to the file successfully or with a write error, any other status,
a request error, or a timeout. -/
inductive HttpOutcome where
  | redirect (code : Nat) (location : Option Nat)
  | okWritten
  | okWriteError (msg : String)
  | status (code : Nat) (message : String)
  | requestError (msg : String)
  | timeout
deriving DecidableEq, Repr

/-- `maxRedirects = 10` of `downloadWithRedirects`. -/
def maxRedirects : Nat := 10

/-- Recursion core of `DownloadManager.downloadWithRedirects`.  The source
recurses with `redirectCount + 1` and fails when `redirectCount >
maxRedirects`; here the remaining budget `maxRedirects + 1 - redirectCount`
drives the structural recursion (`fuel = 0` is exactly `redirectCount >
maxRedirects`).  URLs are abstract identifiers resolved by the ambient
`server`. -/
def downloadWithRedirectsGo (server : Nat → HttpOutcome) (filePath isbn : String) :
    Nat → Nat → DownloadResult
  | 0, _ =>
    { isbn := isbn, success := false, filePath := none,
      errorMessage := "Too many redirects (maximum 10)" }
  | fuel + 1, url =>
    match server url with
    | .redirect _ (some loc) => downloadWithRedirectsGo server filePath isbn fuel loc
    | .redirect code none =>
      { isbn := isbn, success := false, filePath := none,
        errorMessage := "HTTP " ++ toString code ++ ": Redirect without location header" }
    | .okWritten =>
      { isbn := isbn, success := true, filePath := some filePath, errorMessage := "" }
    | .okWriteError msg =>
      { isbn := isbn, success := false, filePath := none,
        errorMessage := "Write error: " ++ msg }
    | .status code message =>
      { isbn := isbn, success := false, filePath := none,
        errorMessage := "HTTP " ++ toString code ++ ": " ++ message }
    | .requestError msg =>
      { isbn := isbn, success := false, filePath := none,
        errorMessage := "Request error: " ++ msg }
    | .timeout =>
      { isbn := isbn, success := false, filePath := none,
        errorMessage := "Request timeout" }

/-- `DownloadManager.downloadWithRedirects` entered at a given
`redirectCount` (the manager calls it with `0`). -/
def downloadWithRedirects (server : Nat → HttpOutcome) (url : Nat)
    (filePath isbn : String) (redirectCount : Nat) : DownloadResult :=
  downloadWithRedirectsGo server filePath isbn (maxRedirects + 1 - redirectCount) url

/-- A server presenting a chain of exactly `n` redirect responses followed
by a successful 200: URL `i < n` redirects to `i + 1`, URL `n` serves the
file. -/
def chainServer (n : Nat) : Nat → HttpOutcome :=
  fun i => if i < n then .redirect 302 (some (i + 1)) else .okWritten

/-- `DownloadManager.updateIndexEntry`: on success the entry becomes
`done` with the result's file path, the completion timestamp and a cleared
error message; on failure it becomes `error` carrying the result's error
message.  A missing key leaves the index unchanged.  The wall-clock
timestamp is abstracted as the argument `now`. -/
def updateIndexEntry (idx : DownloadIndex) (isbn : String)
    (result : DownloadResult) (now : String) : DownloadIndex :=
  match idx isbn with
  | some e =>
    fun k =>
      if k = isbn then
        some
          (if result.success then
            { e with downloadState := .done, filePath := result.filePath,
                     downloadedAt := some now, errorMessage := "" }
          else
            { e with downloadState := .error, errorMessage := result.errorMessage })
      else idx k
  | none => idx

/-! ## Finalisation of category tallies (claim C6) -/

/-- Claim C6: for every accumulated counter state and every `minCount`,
`convertToSortedArray` returns exactly the entries whose count is at least
`minCount` (as a permutation of the filtered entry list) arranged in
non-increasing order of count; applied to the subject-term and keyword
counters independently by `generateResults`. -/
theorem finalize_filter_sorted (counter : List (String × CounterVal))
    (field : String) (minCount : Nat) :
    List.Pairwise (fun a b : CategoryData => b.count ≤ a.count)
      (convertToSortedArray counter field minCount) ∧
    (convertToSortedArray counter field minCount).Perm
      ((counter.map (toCategoryData field)).filter fun c => minCount ≤ c.count) := by
  constructor
  · have h :=
      @List.sorted_mergeSort CategoryData
        (fun a b : CategoryData => decide (b.count ≤ a.count))
        (fun a b c hab hbc => by
          simp only [decide_eq_true_eq] at *
          omega)
        (fun a b => by
          simp only [Bool.or_eq_true, decide_eq_true_eq]
          omega)
        ((counter.map (toCategoryData field)).filter fun c => minCount ≤ c.count)
    exact h.imp fun hab => by simpa using hab
  · exact List.mergeSort_perm _ _

/-! ## Download index: transient-state reset (claim C7) -/

/-- Claim C7: after the reset loop of `loadOrCreateIndex`, every entry
that was `downloading` or `error` is `pending` with its error message
cleared, and no entry of the loaded index remains in `downloading` or
`error`. -/
theorem reset_transient_states_spec (idx : DownloadIndex) (k : String)
    (e e' : IndexEntry) (h : idx k = some e)
    (h' : resetTransientStates idx k = some e') :
    (e.downloadState = .downloading ∨ e.downloadState = .error →
      e' = { e with downloadState := .pending, errorMessage := "" }) ∧
    e'.downloadState ≠ .downloading ∧ e'.downloadState ≠ .error := by
  have he' : e' = resetTransientEntry e := by
    have : resetTransientStates idx k = some (resetTransientEntry e) := by
      simp [resetTransientStates, h]
    rw [this] at h'
    exact (Option.some_inj.mp h').symm
  subst he'
  unfold resetTransientEntry
  by_cases hc : e.downloadState = .downloading ∨ e.downloadState = .error
  · rw [if_pos hc]
    exact ⟨fun _ => rfl, by simp, by simp⟩
  · rw [if_neg hc]
    push_neg at hc
    exact ⟨fun hab => absurd hab (not_or.mpr hc), hc.1, hc.2⟩

/-- Sample entry for the reset-loop witness: a failed download as
`updateIndexEntry` records it. -/
def sampleErrorEntry : IndexEntry :=
  { record := initialBookRecord, downloadState := .error, filePath := none,
    errorMessage := "HTTP 404: Not Found", downloadedAt := none }

/-- A one-entry persisted index holding `sampleErrorEntry`. -/
def sampleErrorIndex : DownloadIndex :=
  fun k => if k = "9780000000001" then some sampleErrorEntry else none

/-- Concrete instance of the reset-loop theorem on `sampleErrorIndex`. -/
theorem reset_transient_states_spec_witness :
    (sampleErrorEntry.downloadState = .downloading ∨
        sampleErrorEntry.downloadState = .error →
      { sampleErrorEntry with
          downloadState := .pending, errorMessage := "" } =
        { sampleErrorEntry with downloadState := .pending, errorMessage := "" }) ∧
    ({ sampleErrorEntry with
        downloadState := DownloadState.pending,
        errorMessage := "" }).downloadState ≠ .downloading ∧
    ({ sampleErrorEntry with
        downloadState := DownloadState.pending,
        errorMessage := "" }).downloadState ≠ .error :=
  reset_transient_states_spec sampleErrorIndex "9780000000001" sampleErrorEntry
    { sampleErrorEntry with downloadState := .pending, errorMessage := "" }
    (by decide) (by decide)


/-! ## Download index: ingestion merge (claims C8, C10) -/

/-- Claim C8: ingesting a record whose sanitized ISBN is already present
replaces only the stored `record` of that entry (state, file path, error
message and timestamp are untouched), an absent key is inserted in state
`pending`, and no other key of the index changes. -/
theorem merge_preserves_state_spec (idx : DownloadIndex) (r : BookRecord)
    (k' : String) (hisbn : truthyOpt r.ISBN = true) (hurl : r.bookUrl ≠ "")
    (hk' : k' ≠ sanitizeISBN (r.ISBN.getD "")) :
    processJsonRecord idx r (sanitizeISBN (r.ISBN.getD "")) =
      some
        (match idx (sanitizeISBN (r.ISBN.getD "")) with
          | some e => { e with record := r }
          | none =>
            { record := r, downloadState := .pending, filePath := none,
              errorMessage := "", downloadedAt := none }) ∧
    processJsonRecord idx r k' = idx k' := by
  have hb : (truthyOpt r.ISBN && !(r.bookUrl == "")) = true := by
    simp [hisbn, hurl]
  unfold processJsonRecord
  rw [hb]
  simp only [if_true]
  cases hidx : idx (sanitizeISBN (r.ISBN.getD "")) with
  | none => exact ⟨by simp, by simp [hk']⟩
  | some e => exact ⟨by simp, by simp [hk']⟩

/-- Sample ingested record with a punctuated ISBN and a usable URL. -/
def sampleGoodRecord : BookRecord :=
  { initialBookRecord with
      ISBN := some "978-0-11", bookUrl := "http://example.org/b.pdf" }

/-- Concrete instance of the merge theorem: `sampleErrorIndex` does not
hold the key `978011`, so ingestion inserts a `pending` entry there and
leaves the unrelated key alone. -/
theorem merge_preserves_state_spec_witness :
    processJsonRecord sampleErrorIndex sampleGoodRecord
        (sanitizeISBN (sampleGoodRecord.ISBN.getD "")) =
      some
        (match sampleErrorIndex (sanitizeISBN (sampleGoodRecord.ISBN.getD "")) with
          | some e => { e with record := sampleGoodRecord }
          | none =>
            { record := sampleGoodRecord, downloadState := .pending,
              filePath := none, errorMessage := "", downloadedAt := none }) ∧
    processJsonRecord sampleErrorIndex sampleGoodRecord "9780000000001" =
      sampleErrorIndex "9780000000001" :=
  merge_preserves_state_spec sampleErrorIndex sampleGoodRecord "9780000000001"
    (by decide) (by decide) (by decide)

/-- One ingestion step preserves, at a fixed key, "absent or holding a
record with truthy ISBN and truthy URL". -/
theorem processJsonRecord_goodEntry (idx : DownloadIndex) (r : BookRecord)
    (k : String)
    (h : idx k = none ∨
      ∃ e, idx k = some e ∧ truthyOpt e.record.ISBN = true ∧ e.record.bookUrl ≠ "") :
    processJsonRecord idx r k = none ∨
      ∃ e, processJsonRecord idx r k = some e ∧
        truthyOpt e.record.ISBN = true ∧ e.record.bookUrl ≠ "" := by
  unfold processJsonRecord
  cases hb : (truthyOpt r.ISBN && !(r.bookUrl == "")) with
  | false => simpa using h
  | true =>
    have hr : truthyOpt r.ISBN = true ∧ r.bookUrl ≠ "" := by
      simpa only [Bool.and_eq_true, Bool.not_eq_true', beq_eq_false_iff_ne] using hb
    simp only [if_true]
    cases hidx : idx (sanitizeISBN (r.ISBN.getD "")) with
    | none =>
      by_cases hk : k = sanitizeISBN (r.ISBN.getD "")
      · exact Or.inr
          ⟨{ record := r, downloadState := .pending, filePath := none,
             errorMessage := "", downloadedAt := none },
            by simp [hk], hr.1, hr.2⟩
      · simpa [hk] using h
    | some e =>
      by_cases hk : k = sanitizeISBN (r.ISBN.getD "")
      · exact Or.inr ⟨{ e with record := r }, by simp [hk], hr.1, hr.2⟩
      · simpa [hk] using h

/-- Folding ingestion over a whole results file preserves the same
per-key invariant. -/
theorem processJsonFile_goodEntry (records : List BookRecord)
    (idx : DownloadIndex) (k : String)
    (h : idx k = none ∨
      ∃ e, idx k = some e ∧ truthyOpt e.record.ISBN = true ∧ e.record.bookUrl ≠ "") :
    processJsonFile idx records k = none ∨
      ∃ e, processJsonFile idx records k = some e ∧
        truthyOpt e.record.ISBN = true ∧ e.record.bookUrl ≠ "" := by
  induction records generalizing idx with
  | nil => exact h
  | cons r rest ih => exact ih _ (processJsonRecord_goodEntry idx r k h)

/-- Claim C10: a record with falsy ISBN or falsy `bookUrl` is silently
skipped by ingestion (the index is unchanged), and consequently every
entry ingestion creates at a previously absent key holds a record with a
non-empty ISBN and a non-empty `bookUrl`. -/
theorem ingestion_skips_invalid_records (idx : DownloadIndex)
    (records : List BookRecord) (k : String) (e : IndexEntry) (r : BookRecord)
    (h0 : idx k = none) (h1 : processJsonFile idx records k = some e)
    (hr : truthyOpt r.ISBN = false ∨ r.bookUrl = "") :
    (truthyOpt e.record.ISBN = true ∧ e.record.bookUrl ≠ "") ∧
    processJsonRecord idx r = idx := by
  constructor
  · rcases processJsonFile_goodEntry records idx k (Or.inl h0) with hnone | ⟨e', he', hgood⟩
    · rw [h1] at hnone
      exact absurd hnone (by simp)
    · have hee : e' = e := by
        rw [h1] at he'
        exact (Option.some_inj.mp he').symm
      rw [hee] at hgood
      exact hgood
  · have hb : (truthyOpt r.ISBN && !(r.bookUrl == "")) = false := by
      rcases hr with h | h <;> simp [h]
    unfold processJsonRecord
    rw [hb]
    simp

/-- The empty download index (fresh `index.json`). -/
def emptyIndex : DownloadIndex := fun _ => none

/-- Concrete instance of the ingestion theorem: one good record creates a
`pending` entry under its sanitized ISBN, and a record with a `null` ISBN
(the defaults) is skipped. -/
theorem ingestion_skips_invalid_records_witness :
    (truthyOpt
        ({ record := sampleGoodRecord, downloadState := .pending,
           filePath := none, errorMessage := "",
           downloadedAt := none } : IndexEntry).record.ISBN = true ∧
      ({ record := sampleGoodRecord, downloadState := .pending,
         filePath := none, errorMessage := "",
         downloadedAt := none } : IndexEntry).record.bookUrl ≠ "") ∧
    processJsonRecord emptyIndex initialBookRecord = emptyIndex :=
  ingestion_skips_invalid_records emptyIndex [sampleGoodRecord] "978011"
    { record := sampleGoodRecord, downloadState := .pending, filePath := none,
      errorMessage := "", downloadedAt := none }
    initialBookRecord (by decide) (by decide) (by decide)

/-! ## Redirect handling (claim C9) -/

/-- Running the download against a redirect chain of length `n` with
enough remaining budget reaches the 200 and succeeds. -/
theorem dwrGo_chain_ok (fp isbn : String) (n : Nat) :
    ∀ fuel i, n - i < fuel →
      downloadWithRedirectsGo (chainServer n) fp isbn fuel i =
        { isbn := isbn, success := true, filePath := some fp, errorMessage := "" } := by
  intro fuel
  induction fuel with
  | zero => intro i h; omega
  | succ fuel ih =>
    intro i h
    by_cases hi : i < n
    · have hs : chainServer n i = .redirect 302 (some (i + 1)) := by
        simp [chainServer, hi]
      simp only [downloadWithRedirectsGo, hs]
      exact ih (i + 1) (by omega)
    · have hs : chainServer n i = .okWritten := by simp [chainServer, hi]
      simp only [downloadWithRedirectsGo, hs]

/-- Running the download against a redirect chain with a budget no larger
than the remaining chain exhausts the budget and fails with the
redirect-limit message. -/
theorem dwrGo_chain_limit (fp isbn : String) (n : Nat) :
    ∀ fuel i, fuel ≤ n - i →
      downloadWithRedirectsGo (chainServer n) fp isbn fuel i =
        { isbn := isbn, success := false, filePath := none,
          errorMessage := "Too many redirects (maximum 10)" } := by
  intro fuel
  induction fuel with
  | zero => intro i _; simp only [downloadWithRedirectsGo]
  | succ fuel ih =>
    intro i h
    have hi : i < n := by omega
    have hs : chainServer n i = .redirect 302 (some (i + 1)) := by
      simp [chainServer, hi]
    simp only [downloadWithRedirectsGo, hs]
    exact ih (i + 1) (by omega)

/-- Claim C9: a chain of exactly 10 redirects ending in a 200 downloads
successfully; a chain of 11 redirects fails that item with the
redirect-limit error, and recording that failure marks the entry `error`
(not `done`) without touching its file path, so the item is never
recorded as a successful download with a file path. -/
theorem redirect_limit_spec (isbn fp now : String) (idx : DownloadIndex)
    (e : IndexEntry) (h : idx isbn = some e) :
    downloadWithRedirects (chainServer 10) 0 fp isbn 0 =
      { isbn := isbn, success := true, filePath := some fp, errorMessage := "" } ∧
    downloadWithRedirects (chainServer 11) 0 fp isbn 0 =
      { isbn := isbn, success := false, filePath := none,
        errorMessage := "Too many redirects (maximum 10)" } ∧
    updateIndexEntry idx isbn (downloadWithRedirects (chainServer 11) 0 fp isbn 0)
        now isbn =
      some { e with downloadState := .error,
                    errorMessage := "Too many redirects (maximum 10)" } ∧
    ({ e with downloadState := DownloadState.error,
              errorMessage := "Too many redirects (maximum 10)" }).downloadState ≠
        DownloadState.done ∧
    ({ e with downloadState := DownloadState.error,
              errorMessage := "Too many redirects (maximum 10)" }).filePath =
      e.filePath := by
  have h10 : downloadWithRedirects (chainServer 10) 0 fp isbn 0 =
      { isbn := isbn, success := true, filePath := some fp, errorMessage := "" } := by
    unfold downloadWithRedirects
    exact dwrGo_chain_ok fp isbn 10 _ 0 (by norm_num [maxRedirects])
  have h11 : downloadWithRedirects (chainServer 11) 0 fp isbn 0 =
      { isbn := isbn, success := false, filePath := none,
        errorMessage := "Too many redirects (maximum 10)" } := by
    unfold downloadWithRedirects
    exact dwrGo_chain_limit fp isbn 11 _ 0 (by norm_num [maxRedirects])
  refine ⟨h10, h11, ?_, by simp, rfl⟩
  rw [h11]
  unfold updateIndexEntry
  rw [h]
  simp

/-- Concrete instance of the redirect-limit theorem on the sample index. -/
theorem redirect_limit_spec_witness :
    downloadWithRedirects (chainServer 10) 0 "out.pdf" "9780000000001" 0 =
      { isbn := "9780000000001", success := true, filePath := some "out.pdf",
        errorMessage := "" } ∧
    downloadWithRedirects (chainServer 11) 0 "out.pdf" "9780000000001" 0 =
      { isbn := "9780000000001", success := false, filePath := none,
        errorMessage := "Too many redirects (maximum 10)" } ∧
    updateIndexEntry sampleErrorIndex "9780000000001"
        (downloadWithRedirects (chainServer 11) 0 "out.pdf" "9780000000001" 0)
        "2024-01-01T00:00:00.000Z" "9780000000001" =
      some { sampleErrorEntry with
              downloadState := .error,
              errorMessage := "Too many redirects (maximum 10)" } ∧
    ({ sampleErrorEntry with
        downloadState := DownloadState.error,
        errorMessage := "Too many redirects (maximum 10)" }).downloadState ≠
      DownloadState.done ∧
    ({ sampleErrorEntry with
        downloadState := DownloadState.error,
        errorMessage := "Too many redirects (maximum 10)" }).filePath =
      sampleErrorEntry.filePath :=
  redirect_limit_spec "9780000000001" "out.pdf" "2024-01-01T00:00:00.000Z"
    sampleErrorIndex sampleErrorEntry (by decide)

/-! ## Book Record Mapper: projection lemmas

Each `switch` case of `convertToBookRecord` writes a fixed set of record
members; the lemmas below isolate what one data field does to the members
the claims are about. -/

theorem process856_ISBN (br : BookRecord) (subs : List SubField) :
    (process856 br subs).ISBN = br.ISBN := by
  unfold process856
  split_ifs <;> rfl

theorem process856_description (br : BookRecord) (subs : List SubField) :
    (process856 br subs).description = br.description := by
  unfold process856
  split_ifs <;> rfl

theorem process856_publisher (br : BookRecord) (subs : List SubField) :
    (process856 br subs).publisher = br.publisher := by
  unfold process856
  split_ifs <;> rfl

theorem process856_publicationDate (br : BookRecord) (subs : List SubField) :
    (process856 br subs).publicationDate = br.publicationDate := by
  unfold process856
  split_ifs <;> rfl

theorem processDataField_ISBN (br : BookRecord) (df : DataField) :
    (processDataField br df).ISBN =
      if df.tag = "020" then isbnStep br.ISBN df.subfields else br.ISBN := by
  unfold processDataField
  split_ifs with h1 h2 h3 h4 h5 h6 h7 h8 h9 <;>
    first
      | rfl
      | exact process856_ISBN br df.subfields

theorem processDataField_description (br : BookRecord) (df : DataField) :
    (processDataField br df).description =
      if df.tag = "520" then (firstSubfieldValue "a" df.subfields).or br.description
      else br.description := by
  unfold processDataField
  split_ifs with h1 h2 h3 h4 h5 h6 h7 h8 h9 <;>
    first
      | rfl
      | exact process856_description br df.subfields
      | simp_all

theorem processDataField_publisher (br : BookRecord) (df : DataField) :
    (processDataField br df).publisher =
      if df.tag = "260" then (lastSubfieldValue "b" df.subfields).getD br.publisher
      else br.publisher := by
  unfold processDataField
  split_ifs with h1 h2 h3 h4 h5 h6 h7 h8 h9 <;>
    first
      | rfl
      | exact process856_publisher br df.subfields
      | simp_all

theorem processDataField_publicationDate (br : BookRecord) (df : DataField) :
    (processDataField br df).publicationDate =
      if df.tag = "260" then (lastSubfieldValue "c" df.subfields).or br.publicationDate
      else br.publicationDate := by
  unfold processDataField
  split_ifs with h1 h2 h3 h4 h5 h6 h7 h8 h9 <;>
    first
      | rfl
      | exact process856_publicationDate br df.subfields
      | simp_all

/-! ## Book Record Mapper: per-tag candidate sequences

For a repeated tag, each occurrence contributes at most one candidate
value; which candidate the mapper keeps is exactly what claims C3 and C5
are about. -/

/-- Trimmed first-truthy-subfield-`a` value of each field `020`, in
document order. -/
def isbnCandidates (dfs : List DataField) : List String :=
  (dfs.filter fun df => df.tag == "020").filterMap fun df =>
    firstSubfieldValue "a" df.subfields

/-- Trimmed first-truthy-subfield-`a` value of each field `520`, in
document order. -/
def descriptionCandidates (dfs : List DataField) : List String :=
  (dfs.filter fun df => df.tag == "520").filterMap fun df =>
    firstSubfieldValue "a" df.subfields

/-- Trimmed last-truthy-subfield-`b` value of each field `260`, in
document order. -/
def publisherCandidates (dfs : List DataField) : List String :=
  (dfs.filter fun df => df.tag == "260").filterMap fun df =>
    lastSubfieldValue "b" df.subfields

/-- Trimmed last-truthy-subfield-`c` value of each field `260`, in
document order. -/
def dateCandidates (dfs : List DataField) : List String :=
  (dfs.filter fun df => df.tag == "260").filterMap fun df =>
    lastSubfieldValue "c" df.subfields

theorem getLast?_getD_cons {α : Type} (v : α) (l : List α) (d : α) :
    ((v :: l).getLast?).getD d = (l.getLast?).getD v := by
  cases l with
  | nil => rfl
  | cons a as =>
    rw [List.getLast?_cons_cons]
    cases h : (a :: as).getLast? with
    | none => simp at h
    | some w => rfl

theorem getLast?_or_cons {α : Type} (v : α) (l : List α) (d : Option α) :
    ((v :: l).getLast?).or d = (l.getLast?).or (some v) := by
  cases l with
  | nil => rfl
  | cons a as =>
    rw [List.getLast?_cons_cons]
    cases h : (a :: as).getLast? with
    | none => simp at h
    | some w => rfl

theorem foldl_publisher (dfs : List DataField) : ∀ br : BookRecord,
    (dfs.foldl processDataField br).publisher =
      ((publisherCandidates dfs).getLast?).getD br.publisher := by
  induction dfs with
  | nil => intro br; rfl
  | cons df rest ih =>
    intro br
    rw [List.foldl_cons, ih, processDataField_publisher]
    by_cases htag : df.tag = "260"
    · rw [if_pos htag]
      cases hc : lastSubfieldValue "b" df.subfields with
      | some v =>
        have hfil : publisherCandidates (df :: rest) = v :: publisherCandidates rest := by
          unfold publisherCandidates
          rw [List.filter_cons]
          simp only [htag, beq_self_eq_true, if_true, List.filterMap_cons, hc]
        rw [hfil]
        simp only [Option.getD_some]
        exact (getLast?_getD_cons v (publisherCandidates rest) br.publisher).symm
      | none =>
        have hfil : publisherCandidates (df :: rest) = publisherCandidates rest := by
          unfold publisherCandidates
          rw [List.filter_cons]
          simp only [htag, beq_self_eq_true, if_true, List.filterMap_cons, hc]
        rw [hfil]
        rfl
    · rw [if_neg htag]
      have hfil : publisherCandidates (df :: rest) = publisherCandidates rest := by
        unfold publisherCandidates
        rw [List.filter_cons]
        simp only [beq_iff_eq, htag, if_false]
      rw [hfil]

theorem foldl_publicationDate (dfs : List DataField) : ∀ br : BookRecord,
    (dfs.foldl processDataField br).publicationDate =
      ((dateCandidates dfs).getLast?).or br.publicationDate := by
  induction dfs with
  | nil => intro br; rfl
  | cons df rest ih =>
    intro br
    rw [List.foldl_cons, ih, processDataField_publicationDate]
    by_cases htag : df.tag = "260"
    · rw [if_pos htag]
      cases hc : lastSubfieldValue "c" df.subfields with
      | some v =>
        have hfil : dateCandidates (df :: rest) = v :: dateCandidates rest := by
          unfold dateCandidates
          rw [List.filter_cons]
          simp only [htag, beq_self_eq_true, if_true, List.filterMap_cons, hc]
        have hinner : ((some v : Option String)).or br.publicationDate = some v := rfl
        rw [hfil, hinner]
        exact (getLast?_or_cons v (dateCandidates rest) br.publicationDate).symm
      | none =>
        have hfil : dateCandidates (df :: rest) = dateCandidates rest := by
          unfold dateCandidates
          rw [List.filter_cons]
          simp only [htag, beq_self_eq_true, if_true, List.filterMap_cons, hc]
        rw [hfil, Option.none_or]
    · rw [if_neg htag]
      have hfil : dateCandidates (df :: rest) = dateCandidates rest := by
        unfold dateCandidates
        rw [List.filter_cons]
        simp only [beq_iff_eq, htag, if_false]
      rw [hfil]

theorem foldl_description (dfs : List DataField) : ∀ br : BookRecord,
    (dfs.foldl processDataField br).description =
      ((descriptionCandidates dfs).getLast?).or br.description := by
  induction dfs with
  | nil => intro br; rfl
  | cons df rest ih =>
    intro br
    rw [List.foldl_cons, ih, processDataField_description]
    by_cases htag : df.tag = "520"
    · rw [if_pos htag]
      cases hc : firstSubfieldValue "a" df.subfields with
      | some v =>
        have hfil : descriptionCandidates (df :: rest) = v :: descriptionCandidates rest := by
          unfold descriptionCandidates
          rw [List.filter_cons]
          simp only [htag, beq_self_eq_true, if_true, List.filterMap_cons, hc]
        have hinner : ((some v : Option String)).or br.description = some v := rfl
        rw [hfil, hinner]
        exact (getLast?_or_cons v (descriptionCandidates rest) br.description).symm
      | none =>
        have hfil : descriptionCandidates (df :: rest) = descriptionCandidates rest := by
          unfold descriptionCandidates
          rw [List.filter_cons]
          simp only [htag, beq_self_eq_true, if_true, List.filterMap_cons, hc]
        rw [hfil, Option.none_or]
    · rw [if_neg htag]
      have hfil : descriptionCandidates (df :: rest) = descriptionCandidates rest := by
        unfold descriptionCandidates
        rw [List.filter_cons]
        simp only [beq_iff_eq, htag, if_false]
      rw [hfil]

/-- The effect of one field `020` candidate on the running ISBN: keep a
truthy value, otherwise overwrite. -/
def isbnFoldStep (o : Option String) (c : String) : Option String :=
  if truthyOpt o then o else some c

theorem foldl_ISBN (dfs : List DataField) : ∀ br : BookRecord,
    (dfs.foldl processDataField br).ISBN =
      (isbnCandidates dfs).foldl isbnFoldStep br.ISBN := by
  induction dfs with
  | nil => intro br; rfl
  | cons df rest ih =>
    intro br
    rw [List.foldl_cons, ih, processDataField_ISBN]
    by_cases htag : df.tag = "020"
    · rw [if_pos htag]
      cases hc : firstSubfieldValue "a" df.subfields with
      | some v =>
        have hfil : isbnCandidates (df :: rest) = v :: isbnCandidates rest := by
          unfold isbnCandidates
          rw [List.filter_cons]
          simp only [htag, beq_self_eq_true, if_true, List.filterMap_cons, hc]
        have hstep : isbnStep br.ISBN df.subfields = isbnFoldStep br.ISBN v := by
          unfold isbnStep isbnFoldStep
          rw [hc]
          rfl
        rw [hfil, List.foldl_cons, hstep]
      | none =>
        have hfil : isbnCandidates (df :: rest) = isbnCandidates rest := by
          unfold isbnCandidates
          rw [List.filter_cons]
          simp only [htag, beq_self_eq_true, if_true, List.filterMap_cons, hc]
        have hstep : isbnStep br.ISBN df.subfields = br.ISBN := by
          unfold isbnStep
          rw [hc]
          split_ifs <;> rfl
        rw [hfil, hstep]
    · rw [if_neg htag]
      have hfil : isbnCandidates (df :: rest) = isbnCandidates rest := by
        unfold isbnCandidates
        rw [List.filter_cons]
        simp only [beq_iff_eq, htag, if_false]
      rw [hfil]

/-- What the `020` overwrite policy resolves to: the first non-empty
candidate; when candidates exist but every one is empty (all-whitespace
subfield text), the empty string; `none` only when no field `020` carries
a truthy subfield `a` at all. -/
def isbnResolved (cands : List String) : Option String :=
  match cands.find? (fun v => !(v == "")) with
  | some v => some v
  | none => if cands.isEmpty then none else some ""

theorem foldl_isbnFoldStep_truthy (l : List String) (o : Option String)
    (h : truthyOpt o = true) : l.foldl isbnFoldStep o = o := by
  induction l with
  | nil => rfl
  | cons c cs ih =>
    rw [List.foldl_cons]
    have : isbnFoldStep o c = o := by unfold isbnFoldStep; rw [h]; rfl
    rw [this, ih]

theorem foldl_isbnFoldStep_blank (l : List String) :
    l.foldl isbnFoldStep (some "") =
      some ((l.find? fun v => !(v == "")).getD "") := by
  induction l with
  | nil => rfl
  | cons c cs ih =>
    rw [List.foldl_cons]
    have hstep : isbnFoldStep (some "") c = some c := rfl
    rw [hstep, List.find?_cons]
    by_cases hc : c = ""
    · subst hc
      exact ih
    · have ht : truthyOpt (some c) = true := by simp [truthyOpt, hc]
      have hb : (!(c == "")) = true := by simp [hc]
      rw [foldl_isbnFoldStep_truthy cs (some c) ht, hb]
      rfl

theorem foldl_isbnFoldStep_none (l : List String) :
    l.foldl isbnFoldStep none = isbnResolved l := by
  induction l with
  | nil => rfl
  | cons c cs ih =>
    rw [List.foldl_cons]
    have hstep : isbnFoldStep none c = some c := rfl
    rw [hstep]
    by_cases hc : c = ""
    · subst hc
      rw [foldl_isbnFoldStep_blank cs]
      unfold isbnResolved
      rw [List.find?_cons]
      cases hf : cs.find? (fun v => !(v == "")) with
      | some v => rfl
      | none => rfl
    · have ht : truthyOpt (some c) = true := by simp [truthyOpt, hc]
      have hb : (!(c == "")) = true := by simp [hc]
      rw [foldl_isbnFoldStep_truthy cs (some c) ht]
      unfold isbnResolved
      rw [List.find?_cons, hb]

/-! ## Claims C3 and C5 -/

/-- Modelled from the spec's tie-break sentence in claim C3: a
first-occurrence-wins description would take the head of the candidate
sequence of field `520` occurrences. -/
def descriptionFirstOccurrence (dfs : List DataField) : Option String :=
  (descriptionCandidates dfs).head?

/-- A record with two `520` fields carrying distinct summaries. -/
def twoSummariesRecord : MarcRecord :=
  { datafields :=
      [ { tag := "520", subfields := [{ code := "a", val := "first summary" }] },
        { tag := "520", subfields := [{ code := "a", val := "second summary" }] } ] }

/-- Counterexample to claim C3 as stated: on `twoSummariesRecord` the
first qualifying subfield-`a` value among the `520` occurrences is
`"first summary"`, yet `convertToBookRecord` returns `"second summary"`
(the `520` case has no `!bookRecord.description` guard, so a later
occurrence overwrites an earlier one). -/
theorem description_first_wins_counterexample :
    descriptionFirstOccurrence twoSummariesRecord.datafields = some "first summary" ∧
    (convertToBookRecord twoSummariesRecord).description = some "second summary" ∧
    (convertToBookRecord twoSummariesRecord).description ≠
      descriptionFirstOccurrence twoSummariesRecord.datafields := by
  refine ⟨by decide, by decide, by decide⟩

/-- Claim C3 as amended: ISBN does take the first qualifying (non-empty
after trimming) subfield-`a` value across repeated `020` occurrences
(degenerating to `""` when candidates exist but are all blank), but the
description takes the candidate of the *last* `520` occurrence that
carries a truthy subfield `a` (first subfield within that occurrence,
last occurrence across repetitions). -/
theorem isbn_description_policy_amended (r : MarcRecord) :
    (convertToBookRecord r).ISBN = isbnResolved (isbnCandidates r.datafields) ∧
    (convertToBookRecord r).description =
      (descriptionCandidates r.datafields).getLast? := by
  constructor
  · have h := foldl_ISBN r.datafields initialBookRecord
    rw [show convertToBookRecord r = r.datafields.foldl processDataField initialBookRecord from rfl,
      h]
    exact foldl_isbnFoldStep_none _
  · have h := foldl_description r.datafields initialBookRecord
    rw [show convertToBookRecord r = r.datafields.foldl processDataField initialBookRecord from rfl,
      h]
    exact Option.or_none

/-- Claim C5: publisher and publication date are taken, each
independently, from the last `260` occurrence in document order that
carries the corresponding truthy subfield (`b` resp. `c`): later
occurrences overwrite earlier ones, and within one occurrence the last
truthy subfield wins. -/
theorem publisher_date_last_wins (r : MarcRecord) :
    (convertToBookRecord r).publisher =
      ((publisherCandidates r.datafields).getLast?).getD "" ∧
    (convertToBookRecord r).publicationDate =
      (dateCandidates r.datafields).getLast? := by
  constructor
  · exact foldl_publisher r.datafields initialBookRecord
  · have h := foldl_publicationDate r.datafields initialBookRecord
    rw [show convertToBookRecord r = r.datafields.foldl processDataField initialBookRecord from rfl,
      h]
    exact Option.or_none

/-! ## Claim C4: thumbnail classification -/

/-- Modelled from the spec's words in claim C4: a URL is a thumbnail iff
the URL text itself or its paired description contains any of the markers
`thumbnail`, `cover`, `image`, `thumb` as a case-insensitive substring. -/
def specThumbnailMarker (url desc : String) : Bool :=
  ["thumbnail", "cover", "image", "thumb"].any fun m =>
    strIncludes (strLower url) m || strIncludes (strLower desc) m

/-- A record with one `856` field whose description reads `thumb` while
the URL carries no marker. -/
def thumbDescRecord : MarcRecord :=
  { datafields :=
      [ { tag := "856",
          subfields :=
            [ { code := "u", val := "http://example.org/b.pdf" },
              { code := "z", val := "thumb" } ] } ] }

/-- Counterexample to claim C4 as stated: the description `thumb`
contains the marker `thumb`, so the spec's rule classifies the URL as a
thumbnail, yet the code checks `thumb` only against the URL text: on
`thumbDescRecord` the mapper files the URL under `bookUrl` and leaves
`thumnail` unset. -/
theorem thumbnail_marker_counterexample :
    specThumbnailMarker "http://example.org/b.pdf" "thumb" = true ∧
    isThumbnailCheck "http://example.org/b.pdf" (strLower (strTrim "thumb")) = false ∧
    (convertToBookRecord thumbDescRecord).thumnail = none ∧
    (convertToBookRecord thumbDescRecord).bookUrl = "http://example.org/b.pdf" := by
  refine ⟨by decide, by decide, by decide, by decide⟩

/-- Claim C4 as amended: an `856` URL is classified as a thumbnail if and
only if its lowercased text contains one of `thumbnail`, `cover`,
`image`, `thumb`, or its paired lowercased description contains one of
`thumbnail`, `cover`, `image` — the marker `thumb` is probed against the
URL only, not against the description. -/
theorem thumbnail_classification_amended (url desc : String) :
    isThumbnailCheck url (strLower desc) = true ↔
      ((["thumbnail", "cover", "image", "thumb"].any fun m =>
          strIncludes (strLower url) m) = true ∨
        (["thumbnail", "cover", "image"].any fun m =>
          strIncludes (strLower desc) m) = true) := by
  simp only [isThumbnailCheck, List.any_cons, List.any_nil, Bool.or_eq_true,
    Bool.or_false]
  tauto

/-! ## Claim C2: scanner concatenation -/

/-- Fuelled form of the remainder the scanner is left holding (and
silently discards at end of stream). -/
def scanRemainderGo : Nat → List Char → List Char
  | 0, l => l
  | fuel + 1, l =>
    match splitAtFirst closeMarker l with
    | none => l
    | some (_, rest) => scanRemainderGo fuel rest

/-- The unterminated tail of the stream: what remains after the last
closing marker (the whole stream when no closing marker occurs). -/
def scanRemainder (l : List Char) : List Char :=
  scanRemainderGo (l.length + 1) l

theorem isPrefixOf_append_drop :
    ∀ (p l : List Char), p.isPrefixOf l = true → p ++ l.drop p.length = l := by
  intro p
  induction p with
  | nil => intro l _; rfl
  | cons a as ih =>
    intro l hp
    cases l with
    | nil => simp [List.isPrefixOf] at hp
    | cons b bs =>
      simp only [List.isPrefixOf, Bool.and_eq_true, beq_iff_eq] at hp
      obtain ⟨rfl, hrest⟩ := hp
      simpa using ih bs hrest

theorem splitAtFirst_append :
    ∀ (l pat seg rest : List Char),
      splitAtFirst pat l = some (seg, rest) → seg ++ rest = l := by
  intro l
  induction l with
  | nil => intro pat seg rest h; simp [splitAtFirst] at h
  | cons c cs ih =>
    intro pat seg rest h
    unfold splitAtFirst at h
    by_cases hp : pat.isPrefixOf (c :: cs) = true
    · rw [if_pos hp] at h
      simp only [Option.some_inj, Prod.mk.injEq] at h
      obtain ⟨h1, h2⟩ := h
      subst h1; subst h2
      exact isPrefixOf_append_drop pat (c :: cs) hp
    · rw [if_neg hp] at h
      cases hsplit : splitAtFirst pat cs with
      | none => rw [hsplit] at h; simp at h
      | some p =>
        obtain ⟨seg', rest'⟩ := p
        rw [hsplit] at h
        simp only [Option.some_inj, Prod.mk.injEq] at h
        obtain ⟨h1, h2⟩ := h
        subst h1; subst h2
        have hind := ih pat seg' rest' hsplit
        rw [List.cons_append, hind]

theorem splitAtFirst_seg_ne_nil :
    ∀ (l pat seg rest : List Char), pat ≠ [] →
      splitAtFirst pat l = some (seg, rest) → seg ≠ [] := by
  intro l
  induction l with
  | nil => intro pat seg rest _ h; simp [splitAtFirst] at h
  | cons c cs ih =>
    intro pat seg rest hpat h
    unfold splitAtFirst at h
    by_cases hp : pat.isPrefixOf (c :: cs) = true
    · rw [if_pos hp] at h
      simp only [Option.some_inj, Prod.mk.injEq] at h
      obtain ⟨h1, h2⟩ := h
      subst h1; subst h2
      exact hpat
    · rw [if_neg hp] at h
      cases hsplit : splitAtFirst pat cs with
      | none => rw [hsplit] at h; simp at h
      | some p =>
        obtain ⟨seg', rest'⟩ := p
        rw [hsplit] at h
        simp only [Option.some_inj, Prod.mk.injEq] at h
        obtain ⟨h1, h2⟩ := h
        subst h1; subst h2
        simp

theorem splitAtFirst_none_not_contains :
    ∀ (l pat : List Char), pat ≠ [] → splitAtFirst pat l = none →
      listContains pat l = false := by
  intro l
  induction l with
  | nil =>
    intro pat hpat _
    unfold listContains
    simpa using hpat
  | cons c cs ih =>
    intro pat hpat h
    unfold splitAtFirst at h
    by_cases hp : pat.isPrefixOf (c :: cs) = true
    · rw [if_pos hp] at h; simp at h
    · rw [if_neg hp] at h
      cases hsplit : splitAtFirst pat cs with
      | none =>
        unfold listContains
        rw [ih pat hpat hsplit]
        simp [Bool.eq_false_iff.mpr hp]
      | some p => rw [hsplit] at h; simp at h

theorem suffixFromLast_decomp :
    ∀ (l pat f : List Char), suffixFromLast pat l = some f → ∃ j, l = j ++ f := by
  intro l
  induction l with
  | nil => intro pat f h; simp [suffixFromLast] at h
  | cons c cs ih =>
    intro pat f h
    unfold suffixFromLast at h
    cases hs : suffixFromLast pat cs with
    | some s =>
      rw [hs] at h
      simp only [Option.some_inj] at h
      subst h
      obtain ⟨j, hj⟩ := ih pat s hs
      exact ⟨c :: j, by simp [hj]⟩
    | none =>
      rw [hs] at h
      by_cases hp : pat.isPrefixOf (c :: cs) = true
      · rw [if_pos hp] at h
        simp only [Option.some_inj] at h
        subst h
        exact ⟨[], rfl⟩
      · rw [if_neg hp] at h
        simp at h

theorem scanRecordsGo_eq_filterMap : ∀ (fuel : Nat) (l : List Char),
    scanRecordsGo fuel l = (segmentsGo fuel l).filterMap (suffixFromLast openMarker) := by
  intro fuel
  induction fuel with
  | zero => intro l; rfl
  | succ fuel ih =>
    intro l
    unfold scanRecordsGo segmentsGo
    cases hsplit : splitAtFirst closeMarker l with
    | none => rfl
    | some p =>
      obtain ⟨seg, rest⟩ := p
      simp only [List.filterMap_cons]
      cases hs : suffixFromLast openMarker seg with
      | some f => simp [hs, ih rest]
      | none => simp [hs, ih rest]

theorem segmentsGo_flatten : ∀ (fuel : Nat) (l : List Char),
    (segmentsGo fuel l).flatten = terminatedPartGo fuel l := by
  intro fuel
  induction fuel with
  | zero => intro l; rfl
  | succ fuel ih =>
    intro l
    unfold segmentsGo terminatedPartGo
    cases hsplit : splitAtFirst closeMarker l with
    | none => rfl
    | some p =>
      obtain ⟨seg, rest⟩ := p
      rw [List.flatten_cons, ih rest]

theorem terminatedPartGo_append_remainder : ∀ (fuel : Nat) (l : List Char),
    terminatedPartGo fuel l ++ scanRemainderGo fuel l = l := by
  intro fuel
  induction fuel with
  | zero => intro l; rfl
  | succ fuel ih =>
    intro l
    unfold terminatedPartGo scanRemainderGo
    cases hsplit : splitAtFirst closeMarker l with
    | none => rfl
    | some p =>
      obtain ⟨seg, rest⟩ := p
      rw [List.append_assoc, ih rest]
      exact splitAtFirst_append l closeMarker seg rest hsplit

theorem scanRemainderGo_no_close : ∀ (fuel : Nat) (l : List Char),
    l.length < fuel → listContains closeMarker (scanRemainderGo fuel l) = false := by
  intro fuel
  induction fuel with
  | zero => intro l h; omega
  | succ fuel ih =>
    intro l h
    unfold scanRemainderGo
    cases hsplit : splitAtFirst closeMarker l with
    | none => exact splitAtFirst_none_not_contains l closeMarker (by decide) hsplit
    | some p =>
      obtain ⟨seg, rest⟩ := p
      have happ := splitAtFirst_append l closeMarker seg rest hsplit
      have hne := splitAtFirst_seg_ne_nil l closeMarker seg rest (by decide) hsplit
      have hlen : seg.length + rest.length = l.length := by
        rw [← happ, List.length_append]
      have hpos : 0 < seg.length := List.length_pos.mpr hne
      exact ih rest (by omega)

/-- A stream whose single record fragment is preceded by stray text. -/
def strayPrefixedStream : List Char := "X<marc:record>a</marc:record>".data

/-- Counterexample to claim C2 as stated: on `strayPrefixedStream` there
is no unterminated tail (the stream ends at its closing marker), yet the
concatenation of the dispatched fragments misses the leading `X`: the
scanner dispatches only from the last opening marker of each terminated
segment, so inter-record text is silently skipped, not reproduced. -/
theorem scanner_concat_counterexample :
    terminatedPart strayPrefixedStream = strayPrefixedStream ∧
    (scanRecords strayPrefixedStream).flatten = "<marc:record>a</marc:record>".data ∧
    (scanRecords strayPrefixedStream).flatten ≠ terminatedPart strayPrefixedStream := by
  refine ⟨by decide, by decide, by decide⟩

/-- Claim C2 as amended: the stream minus its unterminated trailing
fragment splits into consecutive closing-marker-terminated segments; the
scanner dispatches, per segment, exactly the suffix from the segment's
last opening marker (nothing when the segment has no opening marker), in
order; the remainder past the last closing marker contains no closing
marker and is silently dropped.  Concatenating the dispatched fragments
hence reproduces the original stream minus the unterminated tail and
minus, within each segment, the text before the segment's last opening
marker. -/
theorem scanner_concat_amended (l : List Char) :
    scanRecords l = (segmentsOf l).filterMap (suffixFromLast openMarker) ∧
    (segmentsOf l).flatten = terminatedPart l ∧
    terminatedPart l ++ scanRemainder l = l ∧
    listContains closeMarker (scanRemainder l) = false ∧
    ∀ seg : List Char, segSkipped seg ++ segFrag seg = seg := by
  refine ⟨scanRecordsGo_eq_filterMap _ l, segmentsGo_flatten _ l,
    terminatedPartGo_append_remainder _ l, scanRemainderGo_no_close _ l (by omega), ?_⟩
  intro seg
  unfold segSkipped segFrag
  cases hs : suffixFromLast openMarker seg with
  | none => simp
  | some f =>
    obtain ⟨j, hj⟩ := suffixFromLast_decomp seg openMarker f hs
    subst hj
    simp [List.length_append, List.take_left]

/-! ## Claim C1: single-pass multi-category matcher vs per-category
extraction -/

/-- The two matching predicates are textual copies of one another. -/
theorem recordMatchesCategoryFilter_eq (r : MarcRecord) (field name : String) :
    recordMatchesCategoryFilter r field name = recordMatchesCriteria r field name :=
  rfl

/-- The `BookRecord`s the single-criterion path produces for each
dispatched fragment, flattened in order. -/
def matchedRecords (field name : String) (recs : List (Option MarcRecord)) :
    List BookRecord :=
  recs.flatMap fun rec => processRecordForExtraction field name [] rec

theorem processRecordForExtraction_append (field name : String)
    (acc : List BookRecord) (rec : Option MarcRecord) :
    processRecordForExtraction field name acc rec =
      acc ++ processRecordForExtraction field name [] rec := by
  cases rec with
  | none => simp [processRecordForExtraction]
  | some r =>
    show (if recordMatchesCriteria r field name = true then
        acc ++ [convertToBookRecord r] else acc) =
      acc ++ (if recordMatchesCriteria r field name = true then
        [] ++ [convertToBookRecord r] else [])
    split_ifs <;> simp

theorem extractRecordsList_foldl (field name : String) :
    ∀ (recs : List (Option MarcRecord)) (acc : List BookRecord),
      recs.foldl (processRecordForExtraction field name) acc =
        acc ++ matchedRecords field name recs := by
  intro recs
  induction recs with
  | nil => intro acc; simp [matchedRecords]
  | cons rec rest ih =>
    intro acc
    rw [List.foldl_cons, ih, processRecordForExtraction_append]
    simp [matchedRecords, List.flatMap_cons]

theorem extractRecordsList_eq (field name : String)
    (recs : List (Option MarcRecord)) :
    extractRecordsList field name recs = matchedRecords field name recs := by
  unfold extractRecordsList
  rw [extractRecordsList_foldl]
  rfl

theorem bucketPush_ne (b : Buckets) (k : String) (x : BookRecord) (k' : String)
    (h : k' ≠ k) : bucketPush b k x k' = b k' := by
  unfold bucketPush
  cases hbk : b k with
  | none => rfl
  | some bl =>
    show bucketsSet b k (bl ++ [x]) k' = b k'
    unfold bucketsSet
    rw [if_neg h]

theorem bucketPush_self (b : Buckets) (k : String) (x : BookRecord) :
    bucketPush b k x k = (b k).map fun l => l ++ [x] := by
  unfold bucketPush
  cases hbk : b k with
  | none => simp [hbk]
  | some bl =>
    show bucketsSet b k (bl ++ [x]) k = _
    unfold bucketsSet
    rw [if_pos rfl]
    rfl

theorem foldl_categoryStep_notmem (r : MarcRecord) (k : String) :
    ∀ (cs : List BulkExtractItem) (b : Buckets),
      (∀ c' ∈ cs, categoryKey c' ≠ k) →
      (cs.foldl (categoryStep r) b) k = b k := by
  intro cs
  induction cs with
  | nil => intro b _; rfl
  | cons c cs ih =>
    intro b h
    rw [List.foldl_cons, ih _ fun c' hc' => h c' (List.mem_cons_of_mem _ hc')]
    unfold categoryStep
    split_ifs with hm
    · exact bucketPush_ne b (categoryKey c) _ k (h c (List.mem_cons_self c cs)).symm
    · rfl

theorem foldl_categoryStep_mem (r : MarcRecord) (c : BulkExtractItem)
    (cs₁ cs₂ : List BulkExtractItem) (b : Buckets)
    (h₁ : ∀ c' ∈ cs₁, categoryKey c' ≠ categoryKey c)
    (h₂ : ∀ c' ∈ cs₂, categoryKey c' ≠ categoryKey c) :
    ((cs₁ ++ c :: cs₂).foldl (categoryStep r) b) (categoryKey c) =
      (b (categoryKey c)).map fun l =>
        l ++ if recordMatchesCategoryFilter r c.field c.name then
          [convertToBookRecord r] else [] := by
  have hout : ∀ b' : Buckets, (categoryStep r b' c) (categoryKey c) =
      (b' (categoryKey c)).map fun l =>
        l ++ if recordMatchesCategoryFilter r c.field c.name then
          [convertToBookRecord r] else [] := by
    intro b'
    unfold categoryStep
    split_ifs with hm
    · exact bucketPush_self b' (categoryKey c) (convertToBookRecord r)
    · cases hbk : b' (categoryKey c) <;> simp
  rw [List.foldl_append, List.foldl_cons,
    foldl_categoryStep_notmem r (categoryKey c) cs₂ _ h₂, hout,
    foldl_categoryStep_notmem r (categoryKey c) cs₁ b h₁]

theorem processRecordForAllCategories_lookup (cats : List BulkExtractItem)
    (c : BulkExtractItem) (cs₁ cs₂ : List BulkExtractItem)
    (hcats : cats = cs₁ ++ c :: cs₂)
    (h₁ : ∀ c' ∈ cs₁, categoryKey c' ≠ categoryKey c)
    (h₂ : ∀ c' ∈ cs₂, categoryKey c' ≠ categoryKey c)
    (b : Buckets) (rec : Option MarcRecord) :
    (processRecordForAllCategories cats b rec) (categoryKey c) =
      (b (categoryKey c)).map fun l =>
        l ++ processRecordForExtraction c.field c.name [] rec := by
  cases rec with
  | none =>
    cases hbk : b (categoryKey c) <;>
      simp [processRecordForAllCategories, processRecordForExtraction, hbk]
  | some r =>
    subst hcats
    show (((cs₁ ++ c :: cs₂)).foldl (categoryStep r) b) (categoryKey c) = _
    rw [foldl_categoryStep_mem r c cs₁ cs₂ b h₁ h₂]
    have harm : (if recordMatchesCategoryFilter r c.field c.name then
        [convertToBookRecord r] else ([] : List BookRecord)) =
        processRecordForExtraction c.field c.name [] (some r) := by
      unfold processRecordForExtraction
      rw [recordMatchesCategoryFilter_eq]
      split_ifs <;> simp_all
    rw [harm]

theorem extractAll_foldl_lookup (cats : List BulkExtractItem)
    (c : BulkExtractItem) (cs₁ cs₂ : List BulkExtractItem)
    (hcats : cats = cs₁ ++ c :: cs₂)
    (h₁ : ∀ c' ∈ cs₁, categoryKey c' ≠ categoryKey c)
    (h₂ : ∀ c' ∈ cs₂, categoryKey c' ≠ categoryKey c) :
    ∀ (recs : List (Option MarcRecord)) (b : Buckets) (l : List BookRecord),
      b (categoryKey c) = some l →
      (recs.foldl (processRecordForAllCategories cats) b) (categoryKey c) =
        some (l ++ matchedRecords c.field c.name recs) := by
  intro recs
  induction recs with
  | nil => intro b l hb; simpa [matchedRecords] using hb
  | cons rec rest ih =>
    intro b l hb
    rw [List.foldl_cons]
    have hstep :=
      processRecordForAllCategories_lookup cats c cs₁ cs₂ hcats h₁ h₂ b rec
    rw [hb] at hstep
    have hstep' : (processRecordForAllCategories cats b rec) (categoryKey c) =
        some (l ++ processRecordForExtraction c.field c.name [] rec) := by
      rw [hstep]; rfl
    rw [ih _ _ hstep']
    simp [matchedRecords, List.flatMap_cons]

theorem initBuckets_foldl_lookup :
    ∀ (cats : List BulkExtractItem) (b : Buckets) (k : String),
      (cats.foldl (fun b c => bucketsSet b (categoryKey c) []) b) k =
        if k ∈ cats.map categoryKey then some [] else b k := by
  intro cats
  induction cats with
  | nil => intro b k; simp
  | cons c cs ih =>
    intro b k
    rw [List.foldl_cons, ih]
    by_cases hk : k ∈ cs.map categoryKey
    · rw [if_pos hk, if_pos (by simp [hk])]
    · rw [if_neg hk]
      unfold bucketsSet
      by_cases hkc : k = categoryKey c
      · rw [if_pos hkc, if_pos (by simp [hkc])]
      · rw [if_neg hkc, if_neg (by simp [hk, hkc])]

theorem nodup_keys_split (cats : List BulkExtractItem) (c : BulkExtractItem)
    (hc : c ∈ cats) (hnd : (cats.map categoryKey).Nodup) :
    ∃ cs₁ cs₂, cats = cs₁ ++ c :: cs₂ ∧
      (∀ c' ∈ cs₁, categoryKey c' ≠ categoryKey c) ∧
      (∀ c' ∈ cs₂, categoryKey c' ≠ categoryKey c) := by
  obtain ⟨cs₁, cs₂, rfl⟩ := List.append_of_mem hc
  refine ⟨cs₁, cs₂, rfl, ?_, ?_⟩ <;>
    · intro c' hc' heq
      have hmap : ((cs₁ ++ c :: cs₂).map categoryKey) =
          cs₁.map categoryKey ++ categoryKey c :: cs₂.map categoryKey := by simp
      rw [hmap] at hnd
      have hmid := List.nodup_middle.mp hnd
      have hnotmem : categoryKey c ∉ cs₁.map categoryKey ++ cs₂.map categoryKey :=
        (List.nodup_cons.mp hmid).1
      refine hnotmem (List.mem_append.mpr ?_)
      first
        | exact Or.inl (heq ▸ List.mem_map_of_mem categoryKey hc')
        | exact Or.inr (heq ▸ List.mem_map_of_mem categoryKey hc')

/-- Claim C1: for every input stream, every parse function for the
dispatched fragments and every set of category definitions with pairwise
distinct bucket keys (non-overlapping categories), the single-pass
matcher's bucket for a category equals exactly the record sequence a
single-criterion extraction with that category's field and name produces
over the same stream. -/
theorem bulk_single_pass_buckets_agree (parse : List Char → Option MarcRecord)
    (stream : List Char) (cats : List BulkExtractItem) (c : BulkExtractItem)
    (hc : c ∈ cats) (hnd : (cats.map categoryKey).Nodup) :
    extractAllCategoriesInSinglePass cats ((scanRecords stream).map parse)
        (categoryKey c) =
      some (extractRecordsList c.field c.name ((scanRecords stream).map parse)) := by
  obtain ⟨cs₁, cs₂, hcats, h₁, h₂⟩ := nodup_keys_split cats c hc hnd
  have hinit : initBuckets cats (categoryKey c) = some [] := by
    unfold initBuckets
    rw [initBuckets_foldl_lookup]
    rw [if_pos (List.mem_map_of_mem categoryKey hc)]
  unfold extractAllCategoriesInSinglePass
  rw [extractAll_foldl_lookup cats c cs₁ cs₂ hcats h₁ h₂ _ _ [] hinit,
    extractRecordsList_eq]
  rfl

/-- Witness category, parse function and stream for the single-pass
equivalence: one category, one record fragment matching it. -/
def eduCategory : BulkExtractItem := { name := "Education", count := 1, field := "650" }

/-- Parse result of the witness fragment: one field `650` with subfield
`a` equal to the category name. -/
def eduParse : List Char → Option MarcRecord := fun _ =>
  some { datafields := [{ tag := "650", subfields := [{ code := "a", val := "Education" }] }] }

/-- The witness stream: a single complete record fragment. -/
def eduStream : List Char := "<marc:record>r</marc:record>".data

/-- Concrete instance of the single-pass equivalence theorem. -/
theorem bulk_single_pass_buckets_agree_witness :
    eduCategory ∈ [eduCategory] ∧
    (([eduCategory].map categoryKey)).Nodup ∧
    extractAllCategoriesInSinglePass [eduCategory]
        ((scanRecords eduStream).map eduParse) (categoryKey eduCategory) =
      some (extractRecordsList eduCategory.field eduCategory.name
        ((scanRecords eduStream).map eduParse)) :=
  ⟨by decide, by decide,
    bulk_single_pass_buckets_agree eduParse eduStream [eduCategory] eduCategory
      (by decide) (by decide)⟩
